import Mathlib

/-!
Shallow embedding of `src/usbdo96.py` (driver for an EasyDAQ USBDO96
96-channel digital-output card).

Serial traffic is modelled as a trace: every call to `_WriteByte` with a
Configure or Write command is recorded as a `(port, command, value)` triple,
in the order the Python code issues them.  Raising `USBDO96Exception` is
modelled by `Except.error`; an `Except.error` result carries no trace and no
new state, which matches the Python behaviour for the range checks (they all
run before any byte is sent).  Machine values are `Nat` (all the byte
arithmetic in the source stays non-negative); channel/group/port/bit
arguments are `Int`, since the Python code accepts and range-checks
arbitrary integers (including negative ones).
-/

namespace USBDO96

/-- Decidable equality of `Except` results, so that concrete runs of the
embedded operations can be checked by `decide`. -/
instance instDecEqExcept {e a : Type} [DecidableEq e] [DecidableEq a] :
    DecidableEq (Except e a)
  | Except.ok x, Except.ok y =>
    match decEq x y with
    | isTrue h => isTrue (congrArg Except.ok h)
    | isFalse h => isFalse (fun he => h (Except.ok.inj he))
  | Except.ok _, Except.error _ => isFalse (fun h => Except.noConfusion h)
  | Except.error _, Except.ok _ => isFalse (fun h => Except.noConfusion h)
  | Except.error x, Except.error y =>
    match decEq x y with
    | isTrue h => isTrue (congrArg Except.error h)
    | isFalse h => isFalse (fun he => h (Except.error.inj he))

/-- Port identifiers `_PORT_B = 1`, `_PORT_C = 2`, `_PORT_D = 3`
(src/usbdo96.py lines 196-198). -/
def PORT_B : Int := 1

/-- Port C identifier (`_PORT_C = 2`). -/
def PORT_C : Int := 2

/-- Port D identifier (`_PORT_D = 3`). -/
def PORT_D : Int := 3

/-- Command identifier `_CMD_READ = 0` (line 200). -/
def CMD_READ : Int := 0

/-- Command identifier `_CMD_CONFIGURE = 1` (line 201). -/
def CMD_CONFIGURE : Int := 1

/-- Command identifier `_CMD_WRITE = 2` (line 202). -/
def CMD_WRITE : Int := 2

/-- Embedding of `_DOToGPB` (lines 259-275): convert a digital output
(1-based) into `(group, port, bit)`.  The Python guard is
`if do <= 0 or do > 96: raise USBDO96Exception(...)`; past the guard the
operands of the divisions are non-negative, so Python's floor division and
Lean's `Int` division agree.  `port and _PORT_D or _PORT_C` picks `PORT_D`
exactly when the intermediate `port` is non-zero. -/
def DOToGPB (channel : Int) : Except String (Int × Int × Int) :=
  if channel ≤ 0 ∨ channel > 96 then
    Except.error "Invalid Digital Output"
  else
    let d := channel - 1
    let group := d / 16
    let port := (d - 16 * group) / 8
    let bit := d - 16 * group - 8 * port
    Except.ok (group + 1, if port ≠ 0 then PORT_D else PORT_C, bit)

/-- Embedding of `_GPBToDO` (lines 277-298): convert `(group, port, bit)`
into a digital output (1-based).  The bit guard is transcribed exactly as in
the source: `if bit < 0 or bit > 8` — note the upper bound 8, not 7. -/
def GPBToDO (group port bit : Int) : Except String Int :=
  if group ≤ 0 ∨ group > 6 then
    Except.error "Invalid group"
  else
    let g := group - 1
    (if port = PORT_C then Except.ok (0 : Int)
     else if port = PORT_D then Except.ok (1 : Int)
     else Except.error "Invalid port").bind fun p =>
      if bit < 0 ∨ bit > 8 then
        Except.error "Invalid bit number"
      else
        Except.ok (16 * g + 8 * p + bit + 1)

/-- First byte of the two-byte message assembled by `_WriteByte`
(lines 312-314): `chr(65 + (port - 1) * 3 + command)`, with `command`
incremented by one beforehand when `port == _PORT_D and command == _CMD_WRITE`
(the hardware skips 0x49 for the Port D Write command). -/
def writeByteCode (port command : Int) : Int :=
  let command := if port = PORT_D ∧ command = CMD_WRITE then command + 1 else command
  65 + (port - 1) * 3 + command

/-- One recorded serial message: `(port, command, value)`. -/
abbrev Write := Int × Int × Nat

/-- The state owned by a `USBDO96` instance: the `dos_enabled` flag and the
`current_values` cache, a list of 6 ints whose first 16 bits hold the Port
C/D bytes of each group (bit 0 ↔ C0, ..., bit 15 ↔ D7; lines 223-230). -/
structure State where
  dos_enabled : Bool
  current_values : List Nat
deriving DecidableEq, Repr

/-- Embedding of `enableDOs` (lines 356-365): write 0x01 to Port B and set
`dos_enabled = True`. -/
def enableDOs (s : State) : State × List Write :=
  ({ s with dos_enabled := true }, [(PORT_B, CMD_WRITE, 0x01)])

/-- Embedding of `disableDOs` (lines 367-376): write 0x00 to Port B and set
`dos_enabled = False`; `current_values` is untouched. -/
def disableDOs (s : State) : State × List Write :=
  ({ s with dos_enabled := false }, [(PORT_B, CMD_WRITE, 0x00)])

/-- Embedding of `resetDOs` (lines 378-386): write 0x00 to C and D, then
write `port_b_value`, `port_b_value | 0x7E`, `port_b_value` to B (where
`port_b_value = dos_enabled and 0x01 or 0x00`), and reset the cache. -/
def resetDOs (s : State) : State × List Write :=
  let pb : Nat := if s.dos_enabled then 0x01 else 0x00
  ({ s with current_values := List.replicate 6 0 },
   [(PORT_C, CMD_WRITE, 0x00), (PORT_D, CMD_WRITE, 0x00),
    (PORT_B, CMD_WRITE, pb), (PORT_B, CMD_WRITE, pb ||| 0x7E),
    (PORT_B, CMD_WRITE, pb)])

/-- Embedding of `setAllDOs` (lines 388-396): like `resetDOs` but C and D
are written 0xFF and the cache is set to 0xFFFF per group. -/
def setAllDOs (s : State) : State × List Write :=
  let pb : Nat := if s.dos_enabled then 0x01 else 0x00
  ({ s with current_values := List.replicate 6 0xFFFF },
   [(PORT_C, CMD_WRITE, 0xFF), (PORT_D, CMD_WRITE, 0xFF),
    (PORT_B, CMD_WRITE, pb), (PORT_B, CMD_WRITE, pb ||| 0x7E),
    (PORT_B, CMD_WRITE, pb)])

/-- Embedding of `initSerial` (lines 322-340): configure B, C, D as
all-outputs, `disableDOs`, write 0x00 to C and D, write 0x7E to B,
`enableDOs`, and reset the cache to six zeros. -/
def initSerial (s : State) : State × List Write :=
  let w1 : List Write :=
    [(PORT_B, CMD_CONFIGURE, 0x00), (PORT_C, CMD_CONFIGURE, 0x00),
     (PORT_D, CMD_CONFIGURE, 0x00)]
  let sw2 := disableDOs s
  let w3 : List Write :=
    [(PORT_C, CMD_WRITE, 0x00), (PORT_D, CMD_WRITE, 0x00),
     (PORT_B, CMD_WRITE, 0x7E)]
  let sw4 := enableDOs sw2.1
  ({ sw4.1 with current_values := List.replicate 6 0 },
   w1 ++ sw2.2 ++ w3 ++ sw4.2)

/-- A `dos_on`/`dos_off` argument of `setDOs`: in Python it may be `None`,
a single int, or a collection of ints. -/
inductive DOsArg where
  | noneArg : DOsArg
  | intArg : Int → DOsArg
  | listArg : List Int → DOsArg

/-- Embedding of the argument normalization at lines 410-414:
`dos = dos or set(); dos = type(dos) == int and set([dos]) or set(dos)`.
`None`, the int `0` and an empty collection are all falsy in Python, so they
normalize to the empty set; a non-zero int becomes a singleton; a collection
becomes a set (modelled as a deduplicated list). -/
def normalizeDOs : DOsArg → List Int
  | DOsArg.noneArg => []
  | DOsArg.intArg n => if n = 0 then [] else [n]
  | DOsArg.listArg xs => xs.dedup

/-- One bit update of the inner loop of `setDOs` (lines 432-440): set or
clear bit `bit` of byte `x` according to `state` (`if state:` is Python
truthiness, i.e. `state ≠ 0`).  The `bit` values reaching this code come
from `_DOToGPB` and are non-negative, so `Int.toNat` is exact. -/
def updByte (x : Nat) (bit : Int) (state : Nat) : Nat :=
  if state ≠ 0 then x ||| (1 <<< bit.toNat) else x &&& (0xFF ^^^ (1 <<< bit.toNat))

/-- One `(port, bit, state)` step of the inner loop of `setDOs`
(lines 430-442), including the `raise` on an unknown port. -/
def applyPBS (cd : Nat × Nat) (pbs : Int × Int × Nat) : Except String (Nat × Nat) :=
  if pbs.1 = PORT_C then
    Except.ok (updByte cd.1 pbs.2.1 pbs.2.2, cd.2)
  else if pbs.1 = PORT_D then
    Except.ok (cd.1, updByte cd.2 pbs.2.1 pbs.2.2)
  else
    Except.error "Invalid port"

/-- Pure mirror of `applyPBS` (the error branch is unreachable for tuples
produced by `_DOToGPB`, whose port is always `PORT_C` or `PORT_D`). -/
def applyPB (cd : Nat × Nat) (pbs : Int × Int × Nat) : Nat × Nat :=
  if pbs.1 = PORT_C then
    (updByte cd.1 pbs.2.1 pbs.2.2, cd.2)
  else if pbs.1 = PORT_D then
    (cd.1, updByte cd.2 pbs.2.1 pbs.2.2)
  else
    cd

/-- Embedding of the first loop of `setDOs` (lines 416-422): resolve every
channel of the union to `(group, port, bit, state)`, where
`state = int(do in dos_on)`.  Any out-of-range channel raises here, before
any byte is written. -/
def collectGPB (onList : List Int) : List Int → Except String (List (Int × Int × Int × Nat))
  | [] => Except.ok []
  | x :: rest =>
    (DOToGPB x).bind fun gpb =>
      (collectGPB onList rest).map fun tail =>
        (gpb.1, gpb.2.1, gpb.2.2, if onList.contains x then (1 : Nat) else 0) :: tail

/-- The `(port, bit, state)` tuples collected for group `g` (the Python code
appends them to `groups[group]` in encounter order; here they are recovered
by filtering the flat list). -/
def groupPBS (entries : List (Int × Int × Int × Nat)) (g : Nat) : List (Int × Int × Nat) :=
  (entries.filter fun e => e.1 == (g : Int)).map fun e => e.2

/-- Embedding of one iteration of the per-group loop of `setDOs`
(lines 425-455): recompute the C/D pair for group `g` from the cached value
and the collected `(port, bit, state)` tuples; if either byte changed, write
new C, new D, then B with `port_b_value | (1 << group)` and update the
cache entry, otherwise do nothing. -/
def processGroup (base : Nat) (cv : List Nat) (g : Nat) (pbs : List (Int × Int × Nat)) :
    Except String (List Nat × List Write) :=
  (pbs.foldlM applyPBS
      (cv.getD (g - 1) 0 &&& 0xFF, (cv.getD (g - 1) 0 >>> 8) &&& 0xFF)).map fun ncd =>
    if ncd.1 ≠ cv.getD (g - 1) 0 &&& 0xFF ∨ ncd.2 ≠ (cv.getD (g - 1) 0 >>> 8) &&& 0xFF then
      (cv.set (g - 1) (ncd.1 ||| (ncd.2 <<< 8)),
       [(PORT_C, CMD_WRITE, ncd.1), (PORT_D, CMD_WRITE, ncd.2),
        (PORT_B, CMD_WRITE, base ||| (1 <<< g))])
    else
      (cv, [])

/-- The per-group loop of `setDOs`, iterated over a list of group numbers.
The Python code iterates only the touched groups, in (unspecified)
`dict.iteritems()` order; iterating all six groups in ascending order is
observationally identical, since a group with no collected tuples keeps its
bytes and is skipped by the change test. -/
def processGroups (base : Nat) (entries : List (Int × Int × Int × Nat)) :
    List Nat → List Nat → Except String (List Nat × List Write)
  | [], cv => Except.ok (cv, [])
  | g :: gs, cv =>
    (processGroup base cv g (groupPBS entries g)).bind fun cvw =>
      (processGroups base entries gs cvw.1).map fun cvws =>
        (cvws.1, cvw.2 ++ cvws.2)

/-- Embedding of `setDOs` (lines 398-455): normalize both arguments,
resolve every channel of `dos_on ∪ dos_off` (raising on a bad channel
before anything is written), then write the base Port B value once and run
the per-group loop. -/
def setDOs (s : State) (dos_on dos_off : DOsArg) : Except String (State × List Write) :=
  (collectGPB (normalizeDOs dos_on)
      ((normalizeDOs dos_on ++ normalizeDOs dos_off).dedup)).bind fun entries =>
    (processGroups (if s.dos_enabled then 0x01 else 0x00) entries [1, 2, 3, 4, 5, 6]
        s.current_values).map fun cvw =>
      ({ s with current_values := cvw.1 },
       (PORT_B, CMD_WRITE, if s.dos_enabled then 0x01 else 0x00) :: cvw.2)

/-- Embedding of `turnOn` (lines 457-464): `setDOs(dos, None)`. -/
def turnOn (s : State) (dos : DOsArg) : Except String (State × List Write) :=
  setDOs s dos DOsArg.noneArg

/-- Embedding of `turnOff` (lines 466-473): `setDOs(None, dos)`. -/
def turnOff (s : State) (dos : DOsArg) : Except String (State × List Write) :=
  setDOs s DOsArg.noneArg dos

/-- Observation function: the logical state of a channel as recorded in the
`current_values` cache, following the documented layout (lines 223-230:
bit 0 of a group's entry ↔ C0, bit 15 ↔ D7). -/
def channelBit (s : State) (channel : Int) : Except String Bool :=
  (DOToGPB channel).map fun gpb =>
    let v := s.current_values.getD (gpb.1 - 1).toNat 0
    v.testBit ((if gpb.2.1 = PORT_D then 8 else 0) + gpb.2.2.toNat)

/-- Proof-side mirror of the entry built by `collectGPB` for one channel
(the error default is unreachable for channels in 1..96). -/
def entryOf (onList : List Int) (x : Int) : Int × Int × Int × Nat :=
  match DOToGPB x with
  | Except.ok gpb => (gpb.1, gpb.2.1, gpb.2.2, if onList.contains x then (1 : Nat) else 0)
  | Except.error _ => (0, 0, 0, 0)

/-- The resolved entries of a `setDOs` call: one tuple per channel of the
normalized union, in order. -/
def entriesOf (dos_on dos_off : DOsArg) : List (Int × Int × Int × Nat) :=
  (normalizeDOs dos_on ++ normalizeDOs dos_off).dedup.map (entryOf (normalizeDOs dos_on))

/-- The C/D pair the per-group loop computes from a cached 16-bit value `v`
and the collected `(port, bit, state)` tuples. -/
def pairAfter (pbs : List (Int × Int × Nat)) (v : Nat) : Nat × Nat :=
  pbs.foldl applyPB (v &&& 0xFF, (v >>> 8) &&& 0xFF)

/-- The cache entry of a group after one `setDOs` call, as a function of its
previous value `v`: the packed new pair if either byte changed, otherwise
`v` unchanged. -/
def newVal (pbs : List (Int × Int × Nat)) (v : Nat) : Nat :=
  if (pairAfter pbs v).1 ≠ v &&& 0xFF ∨ (pairAfter pbs v).2 ≠ (v >>> 8) &&& 0xFF
  then (pairAfter pbs v).1 ||| ((pairAfter pbs v).2 <<< 8) else v

/-- The serial messages `setDOs` emits for group `g`, as a function of the
group's previous cache value `v` and collected tuples `pbs`: new C, new D,
then the Port B latch write if either byte changed, nothing otherwise. -/
def groupWrites (base : Nat) (pbs : List (Int × Int × Nat)) (v : Nat) (g : Nat) :
    List Write :=
  if (pairAfter pbs v).1 ≠ v &&& 0xFF ∨ (pairAfter pbs v).2 ≠ (v >>> 8) &&& 0xFF then
    [(PORT_C, CMD_WRITE, (pairAfter pbs v).1), (PORT_D, CMD_WRITE, (pairAfter pbs v).2),
     (PORT_B, CMD_WRITE, base ||| (1 <<< g))]
  else []

/-- Range facts about a `(group, port, bit)` triple produced by `_DOToGPB`. -/
def gpbOk (t : Int × Int × Int) : Bool :=
  decide (1 ≤ t.1) && decide (t.1 ≤ 6) && (t.2.1 == PORT_C || t.2.1 == PORT_D) &&
    decide (0 ≤ t.2.2) && decide (t.2.2 ≤ 7)

/-! ### Helper lemmas: the address translation on its finite valid domain -/

/-- `_GPBToDO ∘ _DOToGPB` is the identity on channels 1..96 (finite check). -/
theorem roundtrip_do (n : Nat) (hn : n < 96) :
    (DOToGPB ((n : Int) + 1)).bind (fun gpb => GPBToDO gpb.1 gpb.2.1 gpb.2.2)
      = Except.ok ((n : Int) + 1) := by
  revert n
  decide

/-- `_DOToGPB ∘ _GPBToDO` is the identity on Port C triples with bit 0..7
(finite check). -/
theorem roundtrip_gpb_c (g : Nat) (hg : g < 6) (b : Nat) (hb : b < 8) :
    (GPBToDO ((g : Int) + 1) PORT_C (b : Int)).bind DOToGPB
      = Except.ok ((g : Int) + 1, PORT_C, (b : Int)) := by
  revert g b
  decide

/-- `_DOToGPB ∘ _GPBToDO` is the identity on Port D triples with bit 0..7
(finite check). -/
theorem roundtrip_gpb_d (g : Nat) (hg : g < 6) (b : Nat) (hb : b < 8) :
    (GPBToDO ((g : Int) + 1) PORT_D (b : Int)).bind DOToGPB
      = Except.ok ((g : Int) + 1, PORT_D, (b : Int)) := by
  revert g b
  decide

/-- Every triple `_DOToGPB` produces on the valid domain satisfies `gpbOk`
(finite check). -/
theorem gpb_range (n : Nat) (hn : n < 96) :
    (match DOToGPB ((n : Int) + 1) with
     | Except.ok t => gpbOk t
     | Except.error _ => false) = true := by
  revert n
  decide

/-- Int version of `roundtrip_do`, for channels given as arbitrary integers
in 1..96. -/
theorem roundtrip_do_int (c : Int) (h1 : 1 ≤ c) (h2 : c ≤ 96) :
    (DOToGPB c).bind (fun gpb => GPBToDO gpb.1 gpb.2.1 gpb.2.2) = Except.ok c := by
  have h := roundtrip_do (c - 1).toNat (by omega)
  have hc : (((c - 1).toNat : Nat) : Int) + 1 = c := by omega
  rw [hc] at h
  exact h

/-! ### Claim theorems (address translation and protocol encoding) -/

/-- C2: `_DOToGPB` and `_GPBToDO` are mutual inverses over the valid domain:
for every channel `c` in 1..96, `_GPBToDO` applied to `_DOToGPB c` returns
`c`, and for every group in 1..6, port in `{PORT_C, PORT_D}` and bit in
0..7, `_DOToGPB` applied to `_GPBToDO group port bit` returns
`(group, port, bit)`. -/
theorem C2_translation_mutual_inverses :
    (∀ c : Int, 1 ≤ c → c ≤ 96 →
      (DOToGPB c).bind (fun gpb => GPBToDO gpb.1 gpb.2.1 gpb.2.2) = Except.ok c) ∧
    (∀ g p b : Int, 1 ≤ g → g ≤ 6 → (p = PORT_C ∨ p = PORT_D) → 0 ≤ b → b ≤ 7 →
      (GPBToDO g p b).bind DOToGPB = Except.ok (g, p, b)) := by
  refine ⟨roundtrip_do_int, fun g p b hg1 hg2 hp hb1 hb2 => ?_⟩
  have hgc : (((g - 1).toNat : Nat) : Int) + 1 = g := by omega
  have hbc : (((b.toNat : Nat) : Int)) = b := by omega
  rcases hp with rfl | rfl
  · have h := roundtrip_gpb_c (g - 1).toNat (by omega) b.toNat (by omega)
    rw [hgc, hbc] at h
    exact h
  · have h := roundtrip_gpb_d (g - 1).toNat (by omega) b.toNat (by omega)
    rw [hgc, hbc] at h
    exact h

/-- Witness for C2 at concrete inputs: channel 37 and triple
`(3, PORT_D, 5)`. -/
theorem C2_translation_mutual_inverses_witness :
    (DOToGPB 37).bind (fun gpb => GPBToDO gpb.1 gpb.2.1 gpb.2.2) = Except.ok 37 ∧
    (GPBToDO 3 PORT_D 5).bind DOToGPB = Except.ok (3, PORT_D, 5) :=
  ⟨C2_translation_mutual_inverses.1 37 (by decide) (by decide),
   C2_translation_mutual_inverses.2 3 PORT_D 5 (by decide) (by decide)
     (Or.inr rfl) (by decide) (by decide)⟩

/-- C3: evaluation of the code at the disputed inputs.  `_DOToGPB` does
reject 0 and 97, and `_GPBToDO` does reject group 0, group 7 and bit -1;
but the bit guard is `bit < 0 or bit > 8`, so bit = 8 is accepted:
`_GPBToDO 1 PORT_C 8` returns 9 and `_GPBToDO 6 PORT_D 8` returns 97
instead of raising `OutOfRangeError`. -/
theorem C3_bit8_accepted_by_code :
    DOToGPB 0 = Except.error "Invalid Digital Output" ∧
    DOToGPB 97 = Except.error "Invalid Digital Output" ∧
    GPBToDO 0 PORT_C 0 = Except.error "Invalid group" ∧
    GPBToDO 7 PORT_C 0 = Except.error "Invalid group" ∧
    GPBToDO 1 PORT_C (-1) = Except.error "Invalid bit number" ∧
    GPBToDO 1 PORT_C 8 = Except.ok 9 ∧
    GPBToDO 6 PORT_D 8 = Except.ok 97 := by
  decide

/-- C10: `_GPBToDO` accepts bit = 8 without raising: for every group `g` in
1..6 and both ports it returns `16 * (g - 1) + 8 * portIndex + 9`; in
particular `_GPBToDO g PORT_C 8 = _GPBToDO g PORT_D 0` (the accepted domain
is not mapped injectively), and `_GPBToDO 6 PORT_D 8` returns 97, outside
the 1..96 channel domain. -/
theorem C10_GPBToDO_accepts_bit8 :
    (∀ g : Fin 6,
      GPBToDO (((g : Nat) : Int) + 1) PORT_C 8 = Except.ok (16 * ((g : Nat) : Int) + 9) ∧
      GPBToDO (((g : Nat) : Int) + 1) PORT_D 8 = Except.ok (16 * ((g : Nat) : Int) + 8 + 9) ∧
      GPBToDO (((g : Nat) : Int) + 1) PORT_C 8 = GPBToDO (((g : Nat) : Int) + 1) PORT_D 0) ∧
    GPBToDO 6 PORT_D 8 = Except.ok 97 := by
  decide

/-- C4: the first command byte produced by `_WriteByte` matches the fixed
table (Port B Read/Configure/Write = 0x41/0x42/0x43, Port C = 0x44/0x45/0x46,
Port D = 0x47/0x48/0x4A), i.e. `0x41 + portIndex * 3 + commandIndex` except
Port D Write, which is one higher (0x4A, skipping 0x49). -/
theorem C4_command_byte_table :
    writeByteCode PORT_B CMD_READ = 0x41 ∧
    writeByteCode PORT_B CMD_CONFIGURE = 0x42 ∧
    writeByteCode PORT_B CMD_WRITE = 0x43 ∧
    writeByteCode PORT_C CMD_READ = 0x44 ∧
    writeByteCode PORT_C CMD_CONFIGURE = 0x45 ∧
    writeByteCode PORT_C CMD_WRITE = 0x46 ∧
    writeByteCode PORT_D CMD_READ = 0x47 ∧
    writeByteCode PORT_D CMD_CONFIGURE = 0x48 ∧
    writeByteCode PORT_D CMD_WRITE = 0x4A ∧
    (∀ p c : Int, writeByteCode p c =
      if p = PORT_D ∧ c = CMD_WRITE
      then 0x41 + (p - 1) * 3 + c + 1
      else 0x41 + (p - 1) * 3 + c) := by
  refine ⟨by decide, by decide, by decide, by decide, by decide, by decide, by decide,
    by decide, by decide, fun p c => ?_⟩
  simp only [writeByteCode]
  split <;> ring

/-- C5: from any state, `resetDOs` writes 0x00 to Port C, 0x00 to Port D,
then exactly three writes to Port B in the order `base`, `base ||| 0x7E`,
`base` (with `base = 0x01` if enabled else `0x00`, so the enable bit is
unchanged), and sets all six cache entries to 0. -/
theorem C5_resetDOs_sequence (s : State) :
    resetDOs s =
      ({ s with current_values := List.replicate 6 0 },
       [(PORT_C, CMD_WRITE, 0x00), (PORT_D, CMD_WRITE, 0x00),
        (PORT_B, CMD_WRITE, if s.dos_enabled then 0x01 else 0x00),
        (PORT_B, CMD_WRITE, (if s.dos_enabled then (0x01 : Nat) else 0x00) ||| 0x7E),
        (PORT_B, CMD_WRITE, if s.dos_enabled then 0x01 else 0x00)]) ∧
    ((resetDOs s).2.filter fun w => w.1 == PORT_B).length = 3 ∧
    (resetDOs s).1.dos_enabled = s.dos_enabled := by
  obtain ⟨e, cv⟩ := s
  cases e <;> exact ⟨rfl, rfl, rfl⟩

/-- C6: from any state, `initSerial` performs exactly the write sequence
Configure B 0x00, Configure C 0x00, Configure D 0x00, Write B 0x00
(disable), Write C 0x00, Write D 0x00, Write B 0x7E (latch all 6 groups),
Write B 0x01 (enable); afterwards all six cache entries are 0 (so all 96
channels read logically off) and the board is enabled. -/
theorem C6_initSerial_sequence (s : State) :
    initSerial s =
      ({ dos_enabled := true, current_values := List.replicate 6 0 },
       [(PORT_B, CMD_CONFIGURE, 0x00), (PORT_C, CMD_CONFIGURE, 0x00),
        (PORT_D, CMD_CONFIGURE, 0x00),
        (PORT_B, CMD_WRITE, 0x00), (PORT_C, CMD_WRITE, 0x00),
        (PORT_D, CMD_WRITE, 0x00),
        (PORT_B, CMD_WRITE, 0x7E), (PORT_B, CMD_WRITE, 0x01)]) ∧
    (∀ k : Fin 96,
      channelBit { dos_enabled := true, current_values := List.replicate 6 0 }
        (((k : Nat) : Int) + 1) = Except.ok false) := by
  obtain ⟨e, cv⟩ := s
  exact ⟨rfl, by decide⟩

/-! ### Helper lemmas: success and failure of the channel resolution -/

/-- On a valid channel the guard of `_DOToGPB` does not fire. -/
theorem DOToGPB_ok_of_valid (c : Int) (h1 : 1 ≤ c) (h2 : c ≤ 96) :
    ∃ t, DOToGPB c = Except.ok t := by
  unfold DOToGPB
  rw [if_neg (by omega)]
  exact ⟨_, rfl⟩

/-- On an invalid channel `_DOToGPB` raises. -/
theorem DOToGPB_error_of_invalid (c : Int) (h : c ≤ 0 ∨ 96 < c) :
    DOToGPB c = Except.error "Invalid Digital Output" := by
  unfold DOToGPB
  rw [if_pos (by omega)]

/-- If any channel of the list is out of range, the first loop of `setDOs`
raises (and the embedding therefore records no write at all). -/
theorem collectGPB_error (onList : List Int) (l : List Int)
    (h : ∃ x ∈ l, x ≤ 0 ∨ 96 < x) :
    collectGPB onList l = Except.error "Invalid Digital Output" := by
  induction l with
  | nil => obtain ⟨x, hx, _⟩ := h; exact absurd hx (List.not_mem_nil x)
  | cons y rest ih =>
    by_cases hy : y ≤ 0 ∨ 96 < y
    · simp only [collectGPB, DOToGPB_error_of_invalid y hy]
      rfl
    · obtain ⟨x, hx, hinv⟩ := h
      have hxr : x ∈ rest := by
        rcases List.mem_cons.mp hx with rfl | hr
        · exact absurd hinv hy
        · exact hr
      obtain ⟨t, ht⟩ := DOToGPB_ok_of_valid y (by omega) (by omega)
      simp only [collectGPB, ht, ih ⟨x, hxr, hinv⟩]
      rfl

/-- If every channel of the list is valid, the first loop of `setDOs`
succeeds and produces exactly the `entryOf` tuples, in order. -/
theorem collectGPB_ok (onList : List Int) (l : List Int)
    (h : ∀ x ∈ l, 1 ≤ x ∧ x ≤ 96) :
    collectGPB onList l = Except.ok (l.map (entryOf onList)) := by
  induction l with
  | nil => rfl
  | cons y rest ih =>
    obtain ⟨t, ht⟩ :=
      DOToGPB_ok_of_valid y (h y (List.mem_cons_self y rest)).1
        (h y (List.mem_cons_self y rest)).2
    have ihr := ih (fun x hx => h x (List.mem_cons_of_mem y hx))
    simp only [collectGPB, ht, ihr, List.map_cons, entryOf]
    rfl

/-! ### C9: invalid channels raise before any write -/

/-- C9 (counterexample to the claim as stated): `setDOs(0, None)` passes the
out-of-range channel 0, yet raises nothing: the Python normalization
`dos_on = dos_on or set()` treats the int `0` as falsy, so the call degrades
to an empty request, performs only the initial Port B write, and succeeds. -/
theorem C9_counterexample_int_zero :
    setDOs { dos_enabled := true, current_values := List.replicate 6 0 }
      (DOsArg.intArg 0) DOsArg.noneArg
      = Except.ok ({ dos_enabled := true, current_values := List.replicate 6 0 },
          [(PORT_B, CMD_WRITE, 0x01)]) := by
  decide

/-- C9 (amended): if any channel in the normalized on/off sets is outside
1..96, `setDOs` raises `OutOfRangeError` (`USBDO96Exception`); the error is
raised in the resolution loop, before any byte is written, so the cache and
the enabled flag are left exactly as they were (in the embedding an
`Except.error` result carries no trace and no state change). -/
theorem C9_invalid_channel_raises_before_io (s : State) (dos_on dos_off : DOsArg)
    (h : ∃ c ∈ normalizeDOs dos_on ++ normalizeDOs dos_off, c ≤ 0 ∨ 96 < c) :
    setDOs s dos_on dos_off = Except.error "Invalid Digital Output" := by
  obtain ⟨c, hc, hinv⟩ := h
  have herr := collectGPB_error (normalizeDOs dos_on)
      ((normalizeDOs dos_on ++ normalizeDOs dos_off).dedup)
      ⟨c, List.mem_dedup.mpr hc, hinv⟩
  simp only [setDOs, herr]
  rfl

/-- Witness for the amended C9: requesting channels 97 and 5 raises. -/
theorem C9_invalid_channel_raises_before_io_witness :
    setDOs { dos_enabled := true, current_values := List.replicate 6 0 }
      (DOsArg.listArg [97, 5]) DOsArg.noneArg
      = Except.error "Invalid Digital Output" :=
  C9_invalid_channel_raises_before_io _ _ _ ⟨97, by decide, by decide⟩

/-! ### Helper lemmas: bit-level behaviour of the per-group byte updates -/

/-- `updByte` leaves bit `i` of `x` alone when it addresses another bit. -/
theorem updByte_testBit_ne (x : Nat) (bit : Int) (st : Nat) (i : Nat)
    (hi : i < 8) (hb : bit.toNat ≠ i) :
    (updByte x bit st).testBit i = x.testBit i := by
  unfold updByte
  split
  · rw [Nat.testBit_lor, Nat.one_shiftLeft, Nat.testBit_two_pow_of_ne hb, Bool.or_false]
  · rw [Nat.testBit_land, Nat.testBit_xor, Nat.one_shiftLeft,
      Nat.testBit_two_pow_of_ne hb]
    have h255 : Nat.testBit 0xFF i = true := by
      rw [show (0xFF : Nat) = 2 ^ 8 - 1 by norm_num, Nat.testBit_two_pow_sub_one]
      simpa using hi
    rw [h255]
    simp

/-- Setting a bit with `updByte` (state 1) makes that bit true. -/
theorem updByte_testBit_self_on (x : Nat) (bit : Int) :
    (updByte x bit 1).testBit bit.toNat = true := by
  unfold updByte
  rw [if_pos (by decide), Nat.testBit_lor, Nat.one_shiftLeft,
    Nat.testBit_two_pow_self, Bool.or_true]

/-- One `applyPB` step leaves bit `i` of the C byte alone unless the entry
addresses Port C bit `i`. -/
theorem applyPB_fst_testBit (cd : Nat × Nat) (e : Int × Int × Nat) (i : Nat)
    (hi : i < 8) (hne : ¬(e.1 = PORT_C ∧ e.2.1.toNat = i)) :
    ((applyPB cd e).1).testBit i = cd.1.testBit i := by
  unfold applyPB
  by_cases hc : e.1 = PORT_C
  · rw [if_pos hc]
    exact updByte_testBit_ne cd.1 e.2.1 e.2.2 i hi (fun h => hne ⟨hc, h⟩)
  · rw [if_neg hc]
    split <;> rfl

/-- One `applyPB` step leaves bit `i` of the D byte alone unless the entry
addresses Port D bit `i`. -/
theorem applyPB_snd_testBit (cd : Nat × Nat) (e : Int × Int × Nat) (i : Nat)
    (hi : i < 8) (hne : ¬(e.1 = PORT_D ∧ e.2.1.toNat = i)) :
    ((applyPB cd e).2).testBit i = cd.2.testBit i := by
  unfold applyPB
  by_cases hc : e.1 = PORT_C
  · rw [if_pos hc]
  · rw [if_neg hc]
    by_cases hd : e.1 = PORT_D
    · rw [if_pos hd]
      exact updByte_testBit_ne cd.2 e.2.1 e.2.2 i hi (fun h => hne ⟨hd, h⟩)
    · rw [if_neg hd]

/-- The fold of `applyPB` leaves bit `i` of the C byte alone when no entry
addresses Port C bit `i`. -/
theorem foldl_applyPB_fst_preserve (l : List (Int × Int × Nat)) :
    ∀ cd : Nat × Nat, ∀ i : Nat, i < 8 →
      (∀ e ∈ l, ¬(e.1 = PORT_C ∧ e.2.1.toNat = i)) →
      ((l.foldl applyPB cd).1).testBit i = cd.1.testBit i := by
  induction l with
  | nil => intro cd i _ _; rfl
  | cons e rest ih =>
    intro cd i hi h
    rw [List.foldl_cons,
      ih (applyPB cd e) i hi (fun x hx => h x (List.mem_cons_of_mem e hx))]
    exact applyPB_fst_testBit cd e i hi (h e (List.mem_cons_self e rest))

/-- The fold of `applyPB` leaves bit `i` of the D byte alone when no entry
addresses Port D bit `i`. -/
theorem foldl_applyPB_snd_preserve (l : List (Int × Int × Nat)) :
    ∀ cd : Nat × Nat, ∀ i : Nat, i < 8 →
      (∀ e ∈ l, ¬(e.1 = PORT_D ∧ e.2.1.toNat = i)) →
      ((l.foldl applyPB cd).2).testBit i = cd.2.testBit i := by
  induction l with
  | nil => intro cd i _ _; rfl
  | cons e rest ih =>
    intro cd i hi h
    rw [List.foldl_cons,
      ih (applyPB cd e) i hi (fun x hx => h x (List.mem_cons_of_mem e hx))]
    exact applyPB_snd_testBit cd e i hi (h e (List.mem_cons_self e rest))

/-- If the tuples contain `(PORT_C, b, 1)` and address pairwise-distinct
(port, bit) targets, the folded C byte has bit `b` set. -/
theorem foldl_applyPB_fst_on (l : List (Int × Int × Nat)) :
    ∀ cd : Nat × Nat, ∀ b : Int, b.toNat < 8 →
      (PORT_C, b, (1 : Nat)) ∈ l →
      l.Pairwise (fun e1 e2 => ¬(e1.1 = e2.1 ∧ e1.2.1.toNat = e2.2.1.toNat)) →
      ((l.foldl applyPB cd).1).testBit b.toNat = true := by
  induction l with
  | nil => intro cd b _ hmem _; exact absurd hmem (List.not_mem_nil _)
  | cons e rest ih =>
    intro cd b hb hmem hpw
    rw [List.foldl_cons]
    rcases List.mem_cons.mp hmem with he | hr
    · have hrest : ∀ x ∈ rest, ¬(x.1 = PORT_C ∧ x.2.1.toNat = b.toNat) := by
        intro x hx hcontra
        refine (List.pairwise_cons.mp hpw).1 x hx ?_
        rw [← he]
        exact ⟨hcontra.1.symm, hcontra.2.symm⟩
      rw [foldl_applyPB_fst_preserve rest (applyPB cd e) b.toNat hb hrest, ← he]
      show (updByte cd.1 b 1).testBit b.toNat = true
      exact updByte_testBit_self_on cd.1 b
    · exact ih (applyPB cd e) b hb hr (List.pairwise_cons.mp hpw).2

/-- If the tuples contain `(PORT_D, b, 1)` and address pairwise-distinct
(port, bit) targets, the folded D byte has bit `b` set. -/
theorem foldl_applyPB_snd_on (l : List (Int × Int × Nat)) :
    ∀ cd : Nat × Nat, ∀ b : Int, b.toNat < 8 →
      (PORT_D, b, (1 : Nat)) ∈ l →
      l.Pairwise (fun e1 e2 => ¬(e1.1 = e2.1 ∧ e1.2.1.toNat = e2.2.1.toNat)) →
      ((l.foldl applyPB cd).2).testBit b.toNat = true := by
  induction l with
  | nil => intro cd b _ hmem _; exact absurd hmem (List.not_mem_nil _)
  | cons e rest ih =>
    intro cd b hb hmem hpw
    rw [List.foldl_cons]
    rcases List.mem_cons.mp hmem with he | hr
    · have hrest : ∀ x ∈ rest, ¬(x.1 = PORT_D ∧ x.2.1.toNat = b.toNat) := by
        intro x hx hcontra
        refine (List.pairwise_cons.mp hpw).1 x hx ?_
        rw [← he]
        exact ⟨hcontra.1.symm, hcontra.2.symm⟩
      rw [foldl_applyPB_snd_preserve rest (applyPB cd e) b.toNat hb hrest, ← he]
      show (updByte cd.2 b 1).testBit b.toNat = true
      exact updByte_testBit_self_on cd.2 b
    · exact ih (applyPB cd e) b hb hr (List.pairwise_cons.mp hpw).2

/-- With only valid ports in the list, the effectful fold of `applyPBS`
never raises and agrees with the pure fold of `applyPB`. -/
theorem foldlM_applyPBS (l : List (Int × Int × Nat)) :
    ∀ cd : Nat × Nat, (∀ e ∈ l, e.1 = PORT_C ∨ e.1 = PORT_D) →
      l.foldlM applyPBS cd = Except.ok (l.foldl applyPB cd) := by
  induction l with
  | nil => intro cd _; rfl
  | cons e rest ih =>
    intro cd h
    have hstep : applyPBS cd e = Except.ok (applyPB cd e) := by
      rcases h e (List.mem_cons_self e rest) with h1 | h1 <;>
        simp [applyPBS, applyPB, h1, PORT_C, PORT_D]
    rw [List.foldlM_cons, hstep]
    show rest.foldlM applyPBS (applyPB cd e) = _
    rw [ih (applyPB cd e) (fun x hx => h x (List.mem_cons_of_mem e hx)),
      List.foldl_cons]

/-! ### Helper lemmas: the per-group loop -/

/-- `List.getD` after `List.set` at the same (in-range) index. -/
theorem getD_set_self (l : List Nat) (i : Nat) (a : Nat) (h : i < l.length) :
    (l.set i a).getD i 0 = a := by
  simp [List.getD_eq_getElem?_getD, List.getElem?_set_self h]

/-- `List.getD` after `List.set` at a different index. -/
theorem getD_set_ne (l : List Nat) (i j : Nat) (a : Nat) (h : i ≠ j) :
    (l.set i a).getD j 0 = l.getD j 0 := by
  simp [List.getD_eq_getElem?_getD, List.getElem?_set_ne h]

/-- One iteration of the per-group loop, rephrased through `pairAfter`
(it cannot raise when all ports are valid). -/
theorem processGroup_ok (base : Nat) (cv : List Nat) (g : Nat)
    (pbs : List (Int × Int × Nat))
    (hports : ∀ e ∈ pbs, e.1 = PORT_C ∨ e.1 = PORT_D) :
    processGroup base cv g pbs =
      Except.ok
        (if (pairAfter pbs (cv.getD (g - 1) 0)).1 ≠ cv.getD (g - 1) 0 &&& 0xFF ∨
            (pairAfter pbs (cv.getD (g - 1) 0)).2 ≠ (cv.getD (g - 1) 0 >>> 8) &&& 0xFF
         then cv.set (g - 1)
                ((pairAfter pbs (cv.getD (g - 1) 0)).1 |||
                  ((pairAfter pbs (cv.getD (g - 1) 0)).2 <<< 8))
         else cv,
         groupWrites base pbs (cv.getD (g - 1) 0) g) := by
  unfold processGroup
  rw [foldlM_applyPBS pbs _ hports]
  show Except.ok
      (if (pairAfter pbs (cv.getD (g - 1) 0)).1 ≠ cv.getD (g - 1) 0 &&& 0xFF ∨
          (pairAfter pbs (cv.getD (g - 1) 0)).2 ≠ (cv.getD (g - 1) 0 >>> 8) &&& 0xFF
       then (cv.set (g - 1)
              ((pairAfter pbs (cv.getD (g - 1) 0)).1 |||
                ((pairAfter pbs (cv.getD (g - 1) 0)).2 <<< 8)),
             [(PORT_C, CMD_WRITE, (pairAfter pbs (cv.getD (g - 1) 0)).1),
              (PORT_D, CMD_WRITE, (pairAfter pbs (cv.getD (g - 1) 0)).2),
              (PORT_B, CMD_WRITE, base ||| (1 <<< g))])
       else (cv, [])) = Except.ok _
  unfold groupWrites
  split
  · rfl
  · rfl

/-- Summary of one per-group iteration: the new cache list and the emitted
writes, together with frame and length facts. -/
theorem processGroup_step (base : Nat) (cv : List Nat) (g : Nat)
    (pbs : List (Int × Int × Nat))
    (hports : ∀ e ∈ pbs, e.1 = PORT_C ∨ e.1 = PORT_D) :
    ∃ cv₁, processGroup base cv g pbs =
        Except.ok (cv₁, groupWrites base pbs (cv.getD (g - 1) 0) g) ∧
      cv₁.length = cv.length ∧
      (∀ j : Nat, j ≠ g - 1 → cv₁.getD j 0 = cv.getD j 0) ∧
      (g - 1 < cv.length → cv₁.getD (g - 1) 0 = newVal pbs (cv.getD (g - 1) 0)) := by
  rw [processGroup_ok base cv g pbs hports]
  by_cases hch : (pairAfter pbs (cv.getD (g - 1) 0)).1 ≠ cv.getD (g - 1) 0 &&& 0xFF ∨
      (pairAfter pbs (cv.getD (g - 1) 0)).2 ≠ (cv.getD (g - 1) 0 >>> 8) &&& 0xFF
  · refine ⟨cv.set (g - 1)
        ((pairAfter pbs (cv.getD (g - 1) 0)).1 |||
          ((pairAfter pbs (cv.getD (g - 1) 0)).2 <<< 8)), ?_, by simp, ?_, ?_⟩
    · rw [if_pos hch]
    · intro j hj
      exact getD_set_ne cv (g - 1) j _ (fun h => hj h.symm)
    · intro hlt
      unfold newVal
      rw [if_pos hch]
      exact getD_set_self cv (g - 1) _ hlt
  · refine ⟨cv, ?_, rfl, fun _ _ => rfl, ?_⟩
    · rw [if_neg hch]
    · intro _
      unfold newVal
      rw [if_neg hch]

/-- The whole per-group loop over a duplicate-free list of positive group
numbers: it succeeds, emits the concatenation of the per-group write
bursts (each computed from the group's original cache value), leaves
untouched indices alone, and maps every touched in-range index through
`newVal`. -/
theorem processGroups_ok (base : Nat) (entries : List (Int × Int × Int × Nat))
    (hports : ∀ e ∈ entries, e.2.1 = PORT_C ∨ e.2.1 = PORT_D) :
    ∀ (gs : List Nat) (cv : List Nat), gs.Nodup → (∀ g ∈ gs, 1 ≤ g) →
      ∃ cv', processGroups base entries gs cv =
          Except.ok (cv', gs.flatMap fun g =>
            groupWrites base (groupPBS entries g) (cv.getD (g - 1) 0) g) ∧
        cv'.length = cv.length ∧
        (∀ j : Nat, (j + 1) ∉ gs → cv'.getD j 0 = cv.getD j 0) ∧
        (∀ g ∈ gs, g - 1 < cv.length →
          cv'.getD (g - 1) 0 = newVal (groupPBS entries g) (cv.getD (g - 1) 0)) := by
  intro gs
  induction gs with
  | nil =>
    intro cv _ _
    exact ⟨cv, rfl, rfl, fun _ _ => rfl, fun g hg => absurd hg (List.not_mem_nil g)⟩
  | cons g gs ih =>
    intro cv hnd hpos
    have hg1 : 1 ≤ g := hpos g (List.mem_cons_self g gs)
    have hgports : ∀ e ∈ groupPBS entries g, e.1 = PORT_C ∨ e.1 = PORT_D := by
      intro e he
      obtain ⟨y, hy, rfl⟩ := List.mem_map.mp he
      exact hports y (List.mem_of_mem_filter hy)
    obtain ⟨cv₁, hstep, hlen₁, hframe₁, hown₁⟩ :=
      processGroup_step base cv g (groupPBS entries g) hgports
    obtain ⟨cv₂, hrun, hlen₂, hframe₂, hown₂⟩ :=
      ih cv₁ (List.nodup_cons.mp hnd).2 (fun x hx => hpos x (List.mem_cons_of_mem g hx))
    have hgnot : g ∉ gs := (List.nodup_cons.mp hnd).1
    have htr : (gs.flatMap fun x =>
        groupWrites base (groupPBS entries x) (cv₁.getD (x - 1) 0) x) =
        gs.flatMap fun x =>
        groupWrites base (groupPBS entries x) (cv.getD (x - 1) 0) x := by
      unfold List.flatMap
      refine congrArg List.flatten (List.map_congr_left ?_)
      intro x hx
      have hx1 : 1 ≤ x := hpos x (List.mem_cons_of_mem g hx)
      have hxg : x ≠ g := fun h => hgnot (h ▸ hx)
      rw [hframe₁ (x - 1) (by omega)]
    refine ⟨cv₂, ?_, ?_, ?_, ?_⟩
    · show (processGroup base cv g (groupPBS entries g)).bind _ = _
      rw [hstep]
      show (processGroups base entries gs cv₁).map _ = _
      rw [hrun]
      show Except.ok _ = _
      rw [htr, List.flatMap_cons]
    · rw [hlen₂, hlen₁]
    · intro j hj
      have hj1 : j + 1 ≠ g := fun h => hj (List.mem_cons.mpr (Or.inl h))
      have hj2 : j + 1 ∉ gs := fun h => hj (List.mem_cons.mpr (Or.inr h))
      rw [hframe₂ j hj2, hframe₁ j (by omega)]
    · intro x hx hlt
      rcases List.mem_cons.mp hx with rfl | hxs
      · rw [hframe₂ (x - 1) (by
          have hxx : x - 1 + 1 = x := by omega
          rw [hxx]
          exact hgnot)]
        exact hown₁ hlt
      · have hx1 : 1 ≤ x := hpos x (List.mem_cons_of_mem g hxs)
        have hxg : x ≠ g := fun h => hgnot (h ▸ hxs)
        rw [hown₂ x hxs (by rw [hlen₁]; exact hlt), hframe₁ (x - 1) (by omega)]

/-! ### Helper lemmas: the resolved entries of a `setDOs` call -/

/-- Int version of `gpb_range`. -/
theorem gpbOk_of_valid (c : Int) (h1 : 1 ≤ c) (h2 : c ≤ 96) :
    (match DOToGPB c with
     | Except.ok t => gpbOk t
     | Except.error _ => false) = true := by
  have h := gpb_range (c - 1).toNat (by omega)
  have hc : (((c - 1).toNat : Nat) : Int) + 1 = c := by omega
  rw [hc] at h
  exact h

/-- For a valid channel, `entryOf` reproduces the `_DOToGPB` triple, records
whether the channel is in the on-list, and all its fields are in range. -/
theorem entryOf_spec (onList : List Int) (c : Int) (h1 : 1 ≤ c) (h2 : c ≤ 96) :
    DOToGPB c = Except.ok
      ((entryOf onList c).1, (entryOf onList c).2.1, (entryOf onList c).2.2.1) ∧
    (entryOf onList c).2.2.2 = (if onList.contains c then (1 : Nat) else 0) ∧
    1 ≤ (entryOf onList c).1 ∧ (entryOf onList c).1 ≤ 6 ∧
    ((entryOf onList c).2.1 = PORT_C ∨ (entryOf onList c).2.1 = PORT_D) ∧
    0 ≤ (entryOf onList c).2.2.1 ∧ (entryOf onList c).2.2.1 ≤ 7 := by
  obtain ⟨t, ht⟩ := DOToGPB_ok_of_valid c h1 h2
  have hr := gpbOk_of_valid c h1 h2
  rw [ht] at hr
  unfold gpbOk at hr
  simp only [Bool.and_eq_true, decide_eq_true_eq, Bool.or_eq_true, beq_iff_eq] at hr
  have he : entryOf onList c =
      (t.1, t.2.1, t.2.2, if onList.contains c then (1 : Nat) else 0) := by
    unfold entryOf
    rw [ht]
  rw [he]
  exact ⟨ht, rfl, hr.1.1.1.1, hr.1.1.1.2, hr.1.1.2, hr.1.2, hr.2⟩

/-- `_DOToGPB` is injective on the valid channel domain. -/
theorem DOToGPB_inj (a b : Int) (ha1 : 1 ≤ a) (ha2 : a ≤ 96)
    (hb1 : 1 ≤ b) (hb2 : b ≤ 96) (h : DOToGPB a = DOToGPB b) : a = b := by
  have ra := roundtrip_do_int a ha1 ha2
  have rb := roundtrip_do_int b hb1 hb2
  rw [h] at ra
  rw [ra] at rb
  exact Except.ok.inj rb

/-- Distinct valid channels resolve to distinct `(group, port, bit)`
targets, so the entries of a deduplicated channel list are pairwise
distinct as targets. -/
theorem entries_pairwise (onList : List Int) (l : List Int)
    (hnd : l.Nodup) (hval : ∀ x ∈ l, 1 ≤ x ∧ x ≤ 96) :
    (l.map (entryOf onList)).Pairwise (fun e1 e2 =>
      ¬(e1.1 = e2.1 ∧ e1.2.1 = e2.2.1 ∧ e1.2.2.1.toNat = e2.2.2.1.toNat)) := by
  rw [List.pairwise_map]
  refine List.Pairwise.imp_of_mem ?_ hnd
  intro a b ha hb hne hcontra
  obtain ⟨ha1, ha2⟩ := hval a ha
  obtain ⟨hb1, hb2⟩ := hval b hb
  obtain ⟨hda, _, _, _, _, hba1, hba2⟩ := entryOf_spec onList a ha1 ha2
  obtain ⟨hdb, _, _, _, _, hbb1, hbb2⟩ := entryOf_spec onList b hb1 hb2
  have hbit : (entryOf onList a).2.2.1 = (entryOf onList b).2.2.1 := by omega
  refine hne (DOToGPB_inj a b ha1 ha2 hb1 hb2 ?_)
  rw [hda, hdb, hcontra.1, hcontra.2.1, hbit]

/-- The per-group tuple lists of a deduplicated valid channel list address
pairwise-distinct (port, bit) targets. -/
theorem groupPBS_pairwise (onList : List Int) (l : List Int) (g : Nat)
    (hnd : l.Nodup) (hval : ∀ x ∈ l, 1 ≤ x ∧ x ≤ 96) :
    (groupPBS (l.map (entryOf onList)) g).Pairwise
      (fun e1 e2 => ¬(e1.1 = e2.1 ∧ e1.2.1.toNat = e2.2.1.toNat)) := by
  unfold groupPBS
  rw [List.pairwise_map]
  refine List.Pairwise.imp_of_mem ?_
    ((entries_pairwise onList l hnd hval).filter _)
  intro a b ha hb hne hcontra
  have ha' := List.of_mem_filter ha
  have hb' := List.of_mem_filter hb
  rw [beq_iff_eq] at ha' hb'
  exact hne ⟨by rw [ha', hb'], hcontra.1, hcontra.2⟩

/-- The tuple of a valid channel of the list belongs to its group's tuple
list. -/
theorem mem_groupPBS (onList : List Int) (l : List Int) (c : Int) (hc : c ∈ l)
    (g : Nat) (hg : (entryOf onList c).1 = (g : Int)) :
    (entryOf onList c).2 ∈ groupPBS (l.map (entryOf onList)) g := by
  unfold groupPBS
  refine List.mem_map.mpr ⟨entryOf onList c, ?_, rfl⟩
  refine List.mem_filter.mpr ⟨List.mem_map.mpr ⟨c, hc, rfl⟩, ?_⟩
  rw [beq_iff_eq]
  exact hg

/-- Master lemma for a successful `setDOs` call: the result state and the
full write trace, plus length and per-group cache facts. -/
theorem setDOs_ok (s : State) (don doff : DOsArg)
    (hval : ∀ c ∈ normalizeDOs don ++ normalizeDOs doff, 1 ≤ c ∧ c ≤ 96) :
    ∃ cv', setDOs s don doff = Except.ok
        ({ s with current_values := cv' },
         (PORT_B, CMD_WRITE, if s.dos_enabled then 0x01 else 0x00) ::
           ([1, 2, 3, 4, 5, 6].flatMap fun g =>
             groupWrites (if s.dos_enabled then 0x01 else 0x00)
               (groupPBS ((normalizeDOs don ++ normalizeDOs doff).dedup.map
                 (entryOf (normalizeDOs don))) g)
               (s.current_values.getD (g - 1) 0) g)) ∧
      cv'.length = s.current_values.length ∧
      (∀ g ∈ [1, 2, 3, 4, 5, 6], g - 1 < s.current_values.length →
        cv'.getD (g - 1) 0 =
          newVal (groupPBS ((normalizeDOs don ++ normalizeDOs doff).dedup.map
            (entryOf (normalizeDOs don))) g) (s.current_values.getD (g - 1) 0)) := by
  have hvald : ∀ c ∈ (normalizeDOs don ++ normalizeDOs doff).dedup, 1 ≤ c ∧ c ≤ 96 :=
    fun c hc => hval c (List.mem_dedup.mp hc)
  have hcol := collectGPB_ok (normalizeDOs don) _ hvald
  have hports : ∀ e ∈ (normalizeDOs don ++ normalizeDOs doff).dedup.map
      (entryOf (normalizeDOs don)), e.2.1 = PORT_C ∨ e.2.1 = PORT_D := by
    intro e he
    obtain ⟨x, hx, rfl⟩ := List.mem_map.mp he
    exact (entryOf_spec _ x (hvald x hx).1 (hvald x hx).2).2.2.2.2.1
  obtain ⟨cv', hrun, hlen, _hframe, hown⟩ :=
    processGroups_ok (if s.dos_enabled then 0x01 else 0x00)
      ((normalizeDOs don ++ normalizeDOs doff).dedup.map (entryOf (normalizeDOs don)))
      hports [1, 2, 3, 4, 5, 6] s.current_values (by decide) (by decide)
  refine ⟨cv', ?_, hlen, hown⟩
  unfold setDOs
  rw [hcol]
  show (processGroups _ _ [1, 2, 3, 4, 5, 6] s.current_values).map _ = _
  rw [hrun]
  rfl

/-- If a channel is in the normalized on-list of a successful `setDOs` call,
its bit is set in the resulting cache (whether or not its group's byte pair
changed), and the enabled flag is untouched. -/
theorem setDOs_on_bit (s : State) (don doff : DOsArg) (c : Int)
    (hlen : s.current_values.length = 6)
    (hval : ∀ x ∈ normalizeDOs don ++ normalizeDOs doff, 1 ≤ x ∧ x ≤ 96)
    (hon : c ∈ normalizeDOs don) :
    ∃ s' tr, setDOs s don doff = Except.ok (s', tr) ∧
      s'.dos_enabled = s.dos_enabled ∧ channelBit s' c = Except.ok true := by
  obtain ⟨hc1, hc2⟩ := hval c (List.mem_append.mpr (Or.inl hon))
  have hvald : ∀ x ∈ (normalizeDOs don ++ normalizeDOs doff).dedup, 1 ≤ x ∧ x ≤ 96 :=
    fun x hx => hval x (List.mem_dedup.mp hx)
  obtain ⟨cv', hrun, hlen', hown⟩ := setDOs_ok s don doff hval
  refine ⟨_, _, hrun, rfl, ?_⟩
  obtain ⟨hdo, hst, hg1, hg6, hport, hb0, hb7⟩ :=
    entryOf_spec (normalizeDOs don) c hc1 hc2
  set e := entryOf (normalizeDOs don) c with hedef
  have hcu : c ∈ (normalizeDOs don ++ normalizeDOs doff).dedup :=
    List.mem_dedup.mpr (List.mem_append.mpr (Or.inl hon))
  have hcontains : (normalizeDOs don).contains c = true := by
    simp only [List.contains, List.elem_eq_mem, decide_eq_true_eq]
    exact hon
  simp only [hcontains, if_pos] at hst
  have hmem6 : e.1.toNat ∈ [1, 2, 3, 4, 5, 6] := by
    simp only [List.mem_cons, List.not_mem_nil, or_false]
    omega
  have hlt : e.1.toNat - 1 < s.current_values.length := by
    rw [hlen]; omega
  have hcv := hown e.1.toNat hmem6 hlt
  have hgcast : e.1 = ((e.1.toNat : Nat) : Int) := by omega
  have hpbs := mem_groupPBS (normalizeDOs don) _ c hcu e.1.toNat (hedef ▸ hgcast)
  have hpw := groupPBS_pairwise (normalizeDOs don)
    ((normalizeDOs don ++ normalizeDOs doff).dedup) e.1.toNat
    (List.nodup_dedup _) hvald
  rw [← hedef] at hpbs
  unfold channelBit
  rw [hdo]
  show Except.ok _ = Except.ok true
  congr 1
  show ((cv'.getD (e.1 - 1).toNat 0).testBit
    ((if e.2.1 = PORT_D then 8 else 0) + e.2.2.1.toNat)) = true
  have hidx : (e.1 - 1).toNat = e.1.toNat - 1 := by omega
  rw [hidx, hcv]
  have hbit8 : e.2.2.1.toNat < 8 := by omega
  rcases hport with hpc | hpd
  · -- Port C: the bit sits in the low byte
    have hpbs' : (PORT_C, e.2.2.1, (1 : Nat)) ∈
        groupPBS ((normalizeDOs don ++ normalizeDOs doff).dedup.map
          (entryOf (normalizeDOs don))) e.1.toNat := by
      rw [← hpc, ← hst]
      exact hpbs
    rw [hpc, if_neg (by decide), Nat.zero_add]
    unfold newVal
    split
    · rw [Nat.testBit_lor, Nat.testBit_shiftLeft]
      have h8 : decide (e.2.2.1.toNat ≥ 8) = false := by
        simp only [decide_eq_false_iff_not]
        omega
      rw [h8, Bool.false_and, Bool.or_false]
      exact foldl_applyPB_fst_on _ _ _ hbit8 hpbs' hpw
    · rename_i hch
      push_neg at hch
      have hC := foldl_applyPB_fst_on _
        (s.current_values.getD (e.1.toNat - 1) 0 &&& 0xFF,
         (s.current_values.getD (e.1.toNat - 1) 0 >>> 8) &&& 0xFF)
        _ hbit8 hpbs' hpw
      have hch1 : (pairAfter (groupPBS ((normalizeDOs don ++ normalizeDOs doff).dedup.map
          (entryOf (normalizeDOs don))) e.1.toNat)
          (s.current_values.getD (e.1.toNat - 1) 0)).1 =
          s.current_values.getD (e.1.toNat - 1) 0 &&& 0xFF := hch.1
      unfold pairAfter at hch1
      rw [hch1] at hC
      rw [Nat.testBit_land, Bool.and_eq_true] at hC
      exact hC.1
  · -- Port D: the bit sits in the high byte
    have hpbs' : (PORT_D, e.2.2.1, (1 : Nat)) ∈
        groupPBS ((normalizeDOs don ++ normalizeDOs doff).dedup.map
          (entryOf (normalizeDOs don))) e.1.toNat := by
      rw [← hpd, ← hst]
      exact hpbs
    rw [hpd, if_pos rfl]
    unfold newVal
    split
    · rw [Nat.testBit_lor, Nat.testBit_shiftLeft]
      have h8 : decide (8 + e.2.2.1.toNat ≥ 8) = true := by
        simp only [decide_eq_true_eq]
        omega
      have hsub : 8 + e.2.2.1.toNat - 8 = e.2.2.1.toNat := by omega
      have hD := foldl_applyPB_snd_on _
        (s.current_values.getD (e.1.toNat - 1) 0 &&& 0xFF,
         (s.current_values.getD (e.1.toNat - 1) 0 >>> 8) &&& 0xFF)
        _ hbit8 hpbs' hpw
      unfold pairAfter
      rw [h8, Bool.true_and, hsub, hD, Bool.or_true]
    · rename_i hch
      push_neg at hch
      have hD := foldl_applyPB_snd_on _
        (s.current_values.getD (e.1.toNat - 1) 0 &&& 0xFF,
         (s.current_values.getD (e.1.toNat - 1) 0 >>> 8) &&& 0xFF)
        _ hbit8 hpbs' hpw
      have hch2 : (pairAfter (groupPBS ((normalizeDOs don ++ normalizeDOs doff).dedup.map
          (entryOf (normalizeDOs don))) e.1.toNat)
          (s.current_values.getD (e.1.toNat - 1) 0)).2 =
          (s.current_values.getD (e.1.toNat - 1) 0 >>> 8) &&& 0xFF := hch.2
      unfold pairAfter at hch2
      rw [hch2] at hD
      rw [Nat.testBit_land, Nat.testBit_shiftRight, Bool.and_eq_true] at hD
      exact hD.1

/-! ### Claim theorems for `setDOs` -/

/-- C1: for every successful `setDOs` call the write trace is the base
Port B write followed, group by group, by: nothing when the computed C/D
pair of the group equals the cached pair (and that group's cache entry is
left unchanged), or exactly new C, new D, then Port B with
`base ||| (1 <<< group)` when it differs (and that group's cache entry
becomes the packed new pair). -/
theorem C1_setDOs_per_group (s : State) (don doff : DOsArg)
    (hlen : s.current_values.length = 6)
    (hval : ∀ c ∈ normalizeDOs don ++ normalizeDOs doff, 1 ≤ c ∧ c ≤ 96) :
    ∃ cv', setDOs s don doff = Except.ok
        ({ s with current_values := cv' },
         (PORT_B, CMD_WRITE, if s.dos_enabled then 0x01 else 0x00) ::
           ([1, 2, 3, 4, 5, 6].flatMap fun g =>
             groupWrites (if s.dos_enabled then 0x01 else 0x00)
               (groupPBS (entriesOf don doff) g)
               (s.current_values.getD (g - 1) 0) g)) ∧
      ∀ g ∈ [1, 2, 3, 4, 5, 6],
        (pairAfter (groupPBS (entriesOf don doff) g) (s.current_values.getD (g - 1) 0) =
            (s.current_values.getD (g - 1) 0 &&& 0xFF,
             (s.current_values.getD (g - 1) 0 >>> 8) &&& 0xFF) →
          groupWrites (if s.dos_enabled then 0x01 else 0x00)
              (groupPBS (entriesOf don doff) g)
              (s.current_values.getD (g - 1) 0) g = [] ∧
          cv'.getD (g - 1) 0 = s.current_values.getD (g - 1) 0) ∧
        (pairAfter (groupPBS (entriesOf don doff) g) (s.current_values.getD (g - 1) 0) ≠
            (s.current_values.getD (g - 1) 0 &&& 0xFF,
             (s.current_values.getD (g - 1) 0 >>> 8) &&& 0xFF) →
          groupWrites (if s.dos_enabled then 0x01 else 0x00)
              (groupPBS (entriesOf don doff) g)
              (s.current_values.getD (g - 1) 0) g =
            [(PORT_C, CMD_WRITE,
               (pairAfter (groupPBS (entriesOf don doff) g)
                 (s.current_values.getD (g - 1) 0)).1),
             (PORT_D, CMD_WRITE,
               (pairAfter (groupPBS (entriesOf don doff) g)
                 (s.current_values.getD (g - 1) 0)).2),
             (PORT_B, CMD_WRITE,
               (if s.dos_enabled then 0x01 else 0x00) ||| (1 <<< g))] ∧
          cv'.getD (g - 1) 0 =
            (pairAfter (groupPBS (entriesOf don doff) g)
              (s.current_values.getD (g - 1) 0)).1 |||
              ((pairAfter (groupPBS (entriesOf don doff) g)
                (s.current_values.getD (g - 1) 0)).2 <<< 8)) := by
  obtain ⟨cv', hrun, hlen', hown⟩ := setDOs_ok s don doff hval
  refine ⟨cv', hrun, ?_⟩
  unfold entriesOf
  intro g hg
  have hg6 : g - 1 < 6 := by
    simp only [List.mem_cons, List.not_mem_nil, or_false] at hg
    omega
  have hv := hown g hg (by rw [hlen]; exact hg6)
  constructor
  · intro hsame
    have hcond : ¬((pairAfter (groupPBS ((normalizeDOs don ++ normalizeDOs doff).dedup.map
          (entryOf (normalizeDOs don))) g)
        (s.current_values.getD (g - 1) 0)).1 ≠ s.current_values.getD (g - 1) 0 &&& 0xFF ∨
        (pairAfter (groupPBS ((normalizeDOs don ++ normalizeDOs doff).dedup.map
          (entryOf (normalizeDOs don))) g)
        (s.current_values.getD (g - 1) 0)).2 ≠
          (s.current_values.getD (g - 1) 0 >>> 8) &&& 0xFF) := by
      rw [hsame]
      simp
    constructor
    · unfold groupWrites
      rw [if_neg hcond]
    · rw [hv]
      unfold newVal
      rw [if_neg hcond]
  · intro hdiff
    have hcond : (pairAfter (groupPBS ((normalizeDOs don ++ normalizeDOs doff).dedup.map
          (entryOf (normalizeDOs don))) g)
        (s.current_values.getD (g - 1) 0)).1 ≠ s.current_values.getD (g - 1) 0 &&& 0xFF ∨
        (pairAfter (groupPBS ((normalizeDOs don ++ normalizeDOs doff).dedup.map
          (entryOf (normalizeDOs don))) g)
        (s.current_values.getD (g - 1) 0)).2 ≠
          (s.current_values.getD (g - 1) 0 >>> 8) &&& 0xFF := by
      by_contra hcon
      push_neg at hcon
      exact hdiff (Prod.ext_iff.mpr hcon)
    constructor
    · unfold groupWrites
      rw [if_pos hcond]
    · rw [hv]
      unfold newVal
      rw [if_pos hcond]

/-- Witness for C1: turning channel 3 on from the freshly initialized
state. -/
theorem C1_setDOs_per_group_witness :
    ∃ cv', setDOs { dos_enabled := true, current_values := List.replicate 6 0 }
        (DOsArg.listArg [3]) DOsArg.noneArg = Except.ok
        ({ dos_enabled := true, current_values := cv' },
         (PORT_B, CMD_WRITE, 0x01) ::
           ([1, 2, 3, 4, 5, 6].flatMap fun g =>
             groupWrites 0x01
               (groupPBS (entriesOf (DOsArg.listArg [3]) DOsArg.noneArg) g)
               ((List.replicate 6 0).getD (g - 1) 0) g)) ∧
      ∀ g ∈ [1, 2, 3, 4, 5, 6],
        (pairAfter (groupPBS (entriesOf (DOsArg.listArg [3]) DOsArg.noneArg) g)
            ((List.replicate 6 0).getD (g - 1) 0) =
            ((List.replicate 6 0).getD (g - 1) 0 &&& 0xFF,
             ((List.replicate 6 0 : List Nat).getD (g - 1) 0 >>> 8) &&& 0xFF) →
          groupWrites 0x01
              (groupPBS (entriesOf (DOsArg.listArg [3]) DOsArg.noneArg) g)
              ((List.replicate 6 0).getD (g - 1) 0) g = [] ∧
          cv'.getD (g - 1) 0 = (List.replicate 6 0 : List Nat).getD (g - 1) 0) ∧
        (pairAfter (groupPBS (entriesOf (DOsArg.listArg [3]) DOsArg.noneArg) g)
            ((List.replicate 6 0).getD (g - 1) 0) ≠
            ((List.replicate 6 0).getD (g - 1) 0 &&& 0xFF,
             ((List.replicate 6 0 : List Nat).getD (g - 1) 0 >>> 8) &&& 0xFF) →
          groupWrites 0x01
              (groupPBS (entriesOf (DOsArg.listArg [3]) DOsArg.noneArg) g)
              ((List.replicate 6 0).getD (g - 1) 0) g =
            [(PORT_C, CMD_WRITE,
               (pairAfter (groupPBS (entriesOf (DOsArg.listArg [3]) DOsArg.noneArg) g)
                 ((List.replicate 6 0).getD (g - 1) 0)).1),
             (PORT_D, CMD_WRITE,
               (pairAfter (groupPBS (entriesOf (DOsArg.listArg [3]) DOsArg.noneArg) g)
                 ((List.replicate 6 0).getD (g - 1) 0)).2),
             (PORT_B, CMD_WRITE, 0x01 ||| (1 <<< g))] ∧
          cv'.getD (g - 1) 0 =
            (pairAfter (groupPBS (entriesOf (DOsArg.listArg [3]) DOsArg.noneArg) g)
              ((List.replicate 6 0).getD (g - 1) 0)).1 |||
              ((pairAfter (groupPBS (entriesOf (DOsArg.listArg [3]) DOsArg.noneArg) g)
                ((List.replicate 6 0).getD (g - 1) 0)).2 <<< 8)) :=
  C1_setDOs_per_group { dos_enabled := true, current_values := List.replicate 6 0 }
    (DOsArg.listArg [3]) DOsArg.noneArg (by decide) (by decide)

/-- C7: a channel present in both the on-set and the off-set of a `setDOs`
call ends up on — the on-set wins the tie-break (line 421:
`state = int(do in dos_on)` is evaluated over the union, so membership in
the on-set forces state 1). -/
theorem C7_on_wins (s : State) (don doff : DOsArg) (c : Int)
    (hlen : s.current_values.length = 6)
    (hval : ∀ x ∈ normalizeDOs don ++ normalizeDOs doff, 1 ≤ x ∧ x ≤ 96)
    (hon : c ∈ normalizeDOs don) (_hoff : c ∈ normalizeDOs doff) :
    ∃ s' tr, setDOs s don doff = Except.ok (s', tr) ∧
      channelBit s' c = Except.ok true := by
  obtain ⟨s', tr, h1, _, h3⟩ := setDOs_on_bit s don doff c hlen hval hon
  exact ⟨s', tr, h1, h3⟩

/-- Witness for C7: `setDOs({5}, {5})` from the freshly initialized state
leaves channel 5 on. -/
theorem C7_on_wins_witness :
    ∃ s' tr, setDOs { dos_enabled := true, current_values := List.replicate 6 0 }
        (DOsArg.listArg [5]) (DOsArg.listArg [5]) = Except.ok (s', tr) ∧
      channelBit s' 5 = Except.ok true :=
  C7_on_wins { dos_enabled := true, current_values := List.replicate 6 0 }
    (DOsArg.listArg [5]) (DOsArg.listArg [5]) 5
    (by decide) (by decide) (by decide) (by decide)

/-- C8: `disableDOs` writes 0x00 to Port B and clears the enabled flag while
leaving the cache untouched; a `turnOn([10])` issued while disabled records
channel 10 in the cache (still disabled), and `enableDOs` then writes 0x01
to Port B and re-enables with channel 10's cached bit still set — pending
state survives disable. -/
theorem C8_disable_turnOn_enable (s : State) (hlen : s.current_values.length = 6) :
    disableDOs s = ({ s with dos_enabled := false }, [(PORT_B, CMD_WRITE, 0x00)]) ∧
    ∃ s₂ tr₂, turnOn (disableDOs s).1 (DOsArg.intArg 10) = Except.ok (s₂, tr₂) ∧
      s₂.dos_enabled = false ∧ channelBit s₂ 10 = Except.ok true ∧
      enableDOs s₂ = ({ s₂ with dos_enabled := true }, [(PORT_B, CMD_WRITE, 0x01)]) ∧
      ({ s₂ with dos_enabled := true } : State).dos_enabled = true ∧
      channelBit { s₂ with dos_enabled := true } 10 = Except.ok true := by
  refine ⟨rfl, ?_⟩
  obtain ⟨s₂, tr₂, h1, h2, h3⟩ :=
    setDOs_on_bit (disableDOs s).1 (DOsArg.intArg 10) DOsArg.noneArg 10
      hlen (by decide) (by decide)
  refine ⟨s₂, tr₂, h1, h2.trans rfl, h3, rfl, rfl, ?_⟩
  show channelBit { s₂ with dos_enabled := true } 10 = Except.ok true
  exact h3

/-- Witness for C8 at the freshly initialized state. -/
theorem C8_disable_turnOn_enable_witness :
    disableDOs { dos_enabled := true, current_values := List.replicate 6 0 } =
      ({ dos_enabled := false, current_values := List.replicate 6 0 },
       [(PORT_B, CMD_WRITE, 0x00)]) ∧
    ∃ s₂ tr₂, turnOn (disableDOs
        { dos_enabled := true, current_values := List.replicate 6 0 }).1
        (DOsArg.intArg 10) = Except.ok (s₂, tr₂) ∧
      s₂.dos_enabled = false ∧ channelBit s₂ 10 = Except.ok true ∧
      enableDOs s₂ = ({ s₂ with dos_enabled := true }, [(PORT_B, CMD_WRITE, 0x01)]) ∧
      ({ s₂ with dos_enabled := true } : State).dos_enabled = true ∧
      channelBit { s₂ with dos_enabled := true } 10 = Except.ok true :=
  C8_disable_turnOn_enable { dos_enabled := true, current_values := List.replicate 6 0 }
    (by decide)

end USBDO96
